import Mathlib

/-!
Shallow embedding of the `dis` ingestion-to-broadcast pipeline:
record decoding (`decodeDI`, `Mapping`), duration parsing
(`ParseDuration`), the fetch/dedup cache (`downloadImage`, `ensure`),
the subscriber hub (`HubState`, `openRx`, `publish`, `closeRx`) and the
read loop's completion signalling (`runDoneEmits`, `serverReadDoneEmits`).
Machine integers are modelled as `Int`/`Nat`; Go's `time.Duration` is an
`Int` count of nanoseconds; fallible operations return `Except`/`Option`,
with `Option.none`/dedicated constructors standing for runtime panics.
-/

namespace Dis

/-! ## Strings and integer parsing

Go's `strings.Split` and `strconv.Atoi`, as used by `ParseDuration`
(src/api/ws/server.go).  Splitting is on a single ASCII byte (`'.'` or
`':'`), which coincides with splitting the character list, since an
ASCII byte never occurs inside a multi-byte UTF-8 character.  Go's
`len` counts bytes, modelled with `Char.utf8Size`. -/

/-- Model of Go `strings.Split` for a one-character separator: splits on
every occurrence of `sep`, keeping empty pieces, and returns `[[]]` on
the empty string. -/
def splitOnChar (sep : Char) : List Char → List (List Char)
  | [] => [[]]
  | c :: rest =>
    let r := splitOnChar sep rest
    if c = sep then [] :: r
    else
      match r with
      | [] => [[c]]
      | h :: t => (c :: h) :: t

/-- Go `len` on a string: the number of UTF-8 bytes. -/
def goByteLen (l : List Char) : Nat := (l.map Char.utf8Size).sum

/-- Digit run to its decimal value: `some` only when the list is
non-empty and all characters are ASCII digits. -/
def digitsToNat (l : List Char) : Option Nat :=
  match l with
  | [] => none
  | l =>
    if l.all Char.isDigit then
      some (l.foldl (fun acc c => acc * 10 + (c.toNat - 48)) 0)
    else none

/-- Model of Go `strconv.Atoi`: an optional sign followed by at least one
decimal digit.  The inputs reaching it in this program are at most three
bytes long, so the `int` range can never overflow and is modelled as a
mathematical `Int`. -/
def goAtoi : List Char → Option Int
  | '+' :: rest => (digitsToNat rest).map Int.ofNat
  | '-' :: rest => (digitsToNat rest).map (fun n => -(n : Int))
  | l => (digitsToNat l).map Int.ofNat

/-- Value of `v, _ := strconv.Atoi(s)` with the error discarded:
Go's `Atoi` returns `0` together with a syntax error on malformed input. -/
def atoiOr0 (l : List Char) : Int := (goAtoi l).getD 0

/-! ## Durations (`ParseDuration`, src/api/ws/server.go lines 105-145) -/

/-- Go `time.Duration` unit constants, in nanoseconds. -/
def goMillisecond : Int := 1000000

/-- Nanoseconds in a second. -/
def goSecond : Int := 1000000000

/-- Nanoseconds in a minute. -/
def goMinute : Int := 60000000000

/-- Nanoseconds in an hour. -/
def goHour : Int := 3600000000000

/-- Failure cases of `ParseDuration`, one per `fmt.Errorf` site. -/
inductive DurErr where
  /-- "unable to split duration units from decimals" -/
  | splitDot : DurErr
  /-- "duration units should be in the form of hh:mm:ss" -/
  | unitsCount : DurErr
  /-- "invalid number of digits at position i: found n, but only 2 is allowed" -/
  | unitDigits (pos n : Nat) : DurErr
  /-- "invalid number of millisecond digits: found n, but only 3 is allowed" -/
  | msDigits (n : Nat) : DurErr
  /-- "invalid minutes field: must be less than 59" -/
  | minutes : DurErr
  /-- "invalid seconds field: must be less than 59" -/
  | seconds : DurErr
deriving DecidableEq, Repr

/-- Embedding of `ParseDuration` (src/api/ws/server.go): split on `'.'`
into units and decimals, split the units on `':'`, check the component
and byte-length structure, convert each component with `strconv.Atoi`
discarding the conversion error exactly as the source does, range-check
minutes and seconds, and sum the `time.Duration` value in nanoseconds. -/
def ParseDuration (raw : String) : Except DurErr Int :=
  match splitOnChar '.' raw.data with
  | [p0, p1] =>
    match splitOnChar ':' p0 with
    | [u0, u1, u2] =>
      if goByteLen u0 ≠ 2 then .error (.unitDigits 0 (goByteLen u0))
      else if goByteLen u1 ≠ 2 then .error (.unitDigits 1 (goByteLen u1))
      else if goByteLen u2 ≠ 2 then .error (.unitDigits 2 (goByteLen u2))
      else if goByteLen p1 ≠ 3 then .error (.msDigits (goByteLen p1))
      else
        let h := atoiOr0 u0
        let m := atoiOr0 u1
        let s := atoiOr0 u2
        let ms := atoiOr0 p1
        if m > 59 then .error .minutes
        else if s > 59 then .error .seconds
        else .ok (h * goHour + m * goMinute + s * goSecond + ms * goMillisecond)
    | _ => .error .unitsCount
  | _ => .error .splitDot

/-! ## URLs, file extensions and the content digest

`decodeDI` depends on three external libraries: `net/url`, `path/filepath`
and `crypto/md5`.  They are outside this repository, so they are modelled
from their documented contracts. -/

/-- Model of `net/url.URL` restricted to the one field this program
reads: the path component. -/
structure GoUrl where
  path : String
deriving DecidableEq, Repr

/-- Take characters until one of the given terminators is hit. -/
def takeUntil (stops : List Char) : List Char → List Char
  | [] => []
  | c :: rest => if c ∈ stops then [] else c :: takeUntil stops rest

/-- Drop characters up to (and keeping) the first `'/'`. -/
def dropHost : List Char → List Char
  | [] => []
  | c :: rest => if c = '/' then c :: rest else dropHost rest

/-- Whether the list begins with the two given characters. -/
def startsWith2 (a b : Char) : List Char → Bool
  | x :: y :: _ => x = a && y = b
  | _ => false

/-- Whether a `"://"` scheme separator occurs in the list. -/
def hasSchemeSep : List Char → Bool
  | [] => false
  | c :: rest => (c = ':' && startsWith2 '/' '/' rest) || hasSchemeSep rest

/-- Characters following the first `"://"` occurrence. -/
def afterSchemeSep : List Char → List Char
  | [] => []
  | c :: rest =>
    if c = ':' && startsWith2 '/' '/' rest then rest.drop 2
    else afterSchemeSep rest

/-- Model of `net/url.ParseRequestURI` (external library): a request URI
must be non-empty and either absolute (scheme followed by `"://"`,
authority, then the path) or a rooted path; anything else is an error.
The result exposes the path component, i.e. what follows the authority
and precedes any query or fragment. -/
def parseRequestURI (s : String) : Option GoUrl :=
  match s.data with
  | [] => none
  | l =>
    if hasSchemeSep l then
      some ⟨⟨takeUntil ['?', '#'] (dropHost (afterSchemeSep l))⟩⟩
    else if l.head? = some '/' then
      some ⟨⟨takeUntil ['?', '#'] l⟩⟩
    else none

/-- Scan of the reversed path characters: collect until the final dot,
give up at a path separator or at the start of the string. -/
def extFromRev (acc : List Char) : List Char → List Char
  | [] => []
  | c :: rest =>
    if c = '/' then []
    else if c = '.' then c :: acc
    else extFromRev (c :: acc) rest

/-- Model of `path/filepath.Ext` (external library): the suffix of the
last slash-separated element starting at its final dot, or empty when
that element has no dot. -/
def filepathExt (p : String) : String :=
  ⟨extFromRev [] p.data.reverse⟩

/-- Hexadecimal digit for a value below 16. -/
def hexDigit (n : Nat) : Char :=
  if n < 10 then Char.ofNat (48 + n) else Char.ofNat (87 + n % 16)

/-- Model of the `crypto/md5` hexadecimal digest (external library).  The
program uses the digest only as a deterministic content address — a pure
function of the hashed bytes — so it is modelled as an injective
hexadecimal encoding of the input rather than the MD5 compression
function itself. -/
def md5hex (s : String) : String :=
  ⟨(s.data.map Char.toNat).foldr
    (fun b acc => hexDigit (b / 16 % 16) :: hexDigit (b % 16) :: acc) []⟩

/-! ## Records and decoding (`decodeDI`, src/api/ws/server.go lines 148-182) -/

/-- The column mapping (type `mapping` in src/api/ws/server.go, `mapset`
in src/api/ws.go): positions of the start, end, word and link columns.
Go stores them as `int`; column positions are non-negative, modelled as
`Nat`. -/
structure Mapping where
  cs : Nat
  ce : Nat
  cw : Nat
  cl : Nat
deriving DecidableEq, Repr

/-- Embedding of `mapping.max`: fold of the four configured indices
starting from 0, keeping the larger value. -/
def Mapping.max (m : Mapping) : Nat :=
  [m.cs, m.ce, m.cw, m.cl].foldl (fun mx v => if v > mx then v else mx) 0

/-- The decoded event (type `DI` in src/api/ws/server.go): link, word,
derived file name, and the two timing offsets in nanoseconds. -/
structure DI where
  startAt : Int
  endAt : Int
  link : String
  word : String
  fileName : String
deriving DecidableEq, Repr

/-- Decode-time rejection reasons of `decodeDI`. -/
inductive DecodeErr where
  /-- "unexpected record length n, need at least k" -/
  | schema (len need : Nat) : DecodeErr
  /-- "unable to recognise url at position p" -/
  | uri (pos : Nat) : DecodeErr
  /-- "unable to parse start duration" -/
  | startDur (e : DurErr) : DecodeErr
  /-- "unable to parse end duration" -/
  | endDur (e : DurErr) : DecodeErr
deriving DecidableEq, Repr

/-- Outcome of `decodeDI`: a decoded event, an error return, or a runtime
panic from an out-of-range record index (`rec[i]` with `i ≥ len(rec)`
panics in Go rather than returning an error). -/
inductive DecodeOutcome where
  | ok (di : DI) : DecodeOutcome
  | err (e : DecodeErr) : DecodeOutcome
  | panicOOB (idx : Nat) : DecodeOutcome
deriving DecidableEq, Repr

/-- Embedding of `decodeDI` (src/api/ws/server.go): reject records
shorter than `m.max`, then read the link, word, start and end columns in
source order — each access modelled fallibly so that an out-of-range
index surfaces as `panicOOB` — parse the link as a request URI, parse
both durations, and assemble the event.  The file name is the content
digest of link and word followed by the link path's extension. -/
def decodeDI (m : Mapping) (rec : List String) : DecodeOutcome :=
  if rec.length < m.max then .err (.schema rec.length m.max)
  else
    match rec.get? m.cl with
    | none => .panicOOB m.cl
    | some uri =>
      match parseRequestURI uri with
      | none => .err (.uri m.cl)
      | some u =>
        match rec.get? m.cw with
        | none => .panicOOB m.cw
        | some word =>
          match rec.get? m.cs with
          | none => .panicOOB m.cs
          | some rawStart =>
            match ParseDuration rawStart with
            | .error e => .err (.startDur e)
            | .ok startAt =>
              match rec.get? m.ce with
              | none => .panicOOB m.ce
              | some rawEnd =>
                match ParseDuration rawEnd with
                | .error e => .err (.endDur e)
                | .ok endAt =>
                  .ok { startAt := startAt
                        endAt := endAt
                        link := uri
                        word := word
                        fileName := md5hex (uri ++ word) ++ filepathExt u.path }

/-! ## Fetch cache (`downloadImage`, src/api/ws/server.go lines 184-209)

The storage capability (`FileSystem`: `Exists`/`Create`) is modelled as
the list of stored keys; `os.Create` registers the key immediately, so a
failed retrieval leaves a partial file behind, matching the source's
best-effort semantics.  The fallible external calls — `fs.Create`,
`http.Get` and `io.Copy` — are driven by an oracle fixing which of them
fail, and the number of `Create` and `Get` calls is recorded so that
"performs no retrieval" is a statement about the effect counts. -/

/-- Failure oracle for the external calls made while fetching. -/
structure NetOracle where
  createFails : String → Bool
  getFails : String → Bool
  copyFails : String → Bool

/-- Counts of `fs.Create` and `http.Get` calls performed by one fetch. -/
structure FetchEffects where
  creates : Nat
  gets : Nat
deriving DecidableEq, Repr

/-- Failure cases of `downloadImage`, one per `fmt.Errorf` site. -/
inductive FetchErr where
  /-- "unable to prepare file for storing image" -/
  | create : FetchErr
  /-- "unable to download image" -/
  | get : FetchErr
  /-- "unable to store image" -/
  | copy : FetchErr
deriving DecidableEq, Repr

/-- Embedding of `downloadImage` (src/api/ws/server.go): if the file
name already exists in storage the function returns at once with no
external call; otherwise it creates the file, retrieves the link and
streams the bytes into it, failing at the first unsuccessful step. -/
def downloadImage (o : NetOracle) (fs : List String) (di : DI) :
    Except FetchErr Unit × List String × FetchEffects :=
  if fs.contains di.fileName then (.ok (), fs, ⟨0, 0⟩)
  else if o.createFails di.fileName then (.error .create, fs, ⟨1, 0⟩)
  else if o.getFails di.link then (.error .get, di.fileName :: fs, ⟨1, 1⟩)
  else if o.copyFails di.link then (.error .copy, di.fileName :: fs, ⟨1, 1⟩)
  else (.ok (), di.fileName :: fs, ⟨1, 1⟩)

/-- The fetch-cache `ensure` contract (the shape of
`StreamHandler.handleRecord`, src/api/ws.go lines 199-229): run
`downloadImage` and hand the event through unchanged on success. -/
def ensure (o : NetOracle) (fs : List String) (di : DI) :
    Except FetchErr DI × List String × FetchEffects :=
  match downloadImage o fs di with
  | (.ok _, fs1, eff) => (.ok di, fs1, eff)
  | (.error e, fs1, eff) => (.error e, fs1, eff)

/-- One iteration of the ingestion loop body on a decoded record
(`Server.read`, src/api/ws/server.go lines 228-239): a decode error skips
the record with no effect; a fetch error skips it after the fetch's own
effects; on success the event is broadcast (the returned `Option DI`).
`none` at the outer level is the decode panic. -/
def processRecord (o : NetOracle) (m : Mapping) (fs : List String)
    (rec : List String) : Option (List String × FetchEffects × Option DI) :=
  match decodeDI m rec with
  | .panicOOB _ => none
  | .err _ => some (fs, ⟨0, 0⟩, none)
  | .ok di =>
    match downloadImage o fs di with
    | (.error _, fs1, eff) => some (fs1, eff, none)
    | (.ok _, fs1, eff) => some (fs1, eff, some di)

/-! ## The hub (`StreamHandler`, src/api/ws.go)

The subscriber registry `clients.m : map[string]chan *DI` is modelled as
an association list with the Go map's semantics (`lookupKey`, and
`eraseKey` for `delete`), mailbox channels as queues tagged with a
closed flag and addressed by an identifier allocated at `OpenRx` time
(a channel value in Go), and the `lastDI` slot as an `Option DI`.  The
ingestion path is single-threaded, so each lock-protected section of the
source is one atomic step here; `publish` is split into its two steps —
the fan-out loop under the `clients` lock and the `lastDI` store under
its own lock — so that statements about the intermediate state can be
made. -/

/-- A subscriber mailbox: the queued events of the channel, and whether
the channel has been closed. -/
structure Mailbox where
  buf : List DI
  closed : Bool
deriving DecidableEq, Repr

/-- The shared state of `StreamHandler`: the registry from key to
mailbox identifier, every mailbox ever created (a channel outlives its
registration), the next fresh identifier, and the last published event. -/
structure HubState where
  clients : List (String × Nat)
  boxes : List (Nat × Mailbox)
  nextId : Nat
  lastDI : Option DI
deriving DecidableEq, Repr

/-- Go map lookup `m[key]` on the registry. -/
def lookupKey : List (String × Nat) → String → Option Nat
  | [], _ => none
  | p :: rest, k => if p.1 = k then some p.2 else lookupKey rest k

/-- Go map `delete(m, key)`: the registry without any binding for `key`. -/
def eraseKey (l : List (String × Nat)) (k : String) : List (String × Nat) :=
  l.filter (fun p => !(p.1 = k : Bool))

/-- The mailbox stored under an identifier. -/
def boxGet : List (Nat × Mailbox) → Nat → Option Mailbox
  | [], _ => none
  | p :: rest, i => if p.1 = i then some p.2 else boxGet rest i

/-- Channel send `c <- di`: append the event to the identified mailbox. -/
def boxPush : List (Nat × Mailbox) → Nat → DI → List (Nat × Mailbox)
  | [], _, _ => []
  | p :: rest, i, di =>
    (if p.1 = i then (p.1, { p.2 with buf := p.2.buf ++ [di] }) else p)
      :: boxPush rest i di

/-- Channel `close(c)` on the identified mailbox (the flag only; panic
on double close is handled at the call sites). -/
def boxClose : List (Nat × Mailbox) → Nat → List (Nat × Mailbox)
  | [], _ => []
  | p :: rest, i =>
    (if p.1 = i then (p.1, { p.2 with closed := true }) else p) :: boxClose rest i

/-- The empty hub: no subscribers, no mailboxes, no last event. -/
def hubInit : HubState := ⟨[], [], 0, none⟩

/-- Embedding of `StreamHandler.OpenRx` (src/api/ws.go lines 138-172):
allocate a fresh mailbox, inject the last published event into it when
one exists (under the `lastDI` lock, where the unique key is also
chosen), then under the `clients` lock close and remove any mailbox
already registered under the key and register the new one.  Returns the
new state and the new mailbox's identifier. -/
def openRx (key : String) (st : HubState) : HubState × Nat :=
  let id := st.nextId
  let mb : Mailbox :=
    { buf := match st.lastDI with | some di => [di] | none => []
      closed := false }
  let evicted :=
    match lookupKey st.clients key with
    | some oldId =>
      { st with clients := eraseKey st.clients key
                boxes := boxClose st.boxes oldId }
    | none => st
  ({ evicted with
      clients := (key, id) :: evicted.clients
      boxes := (id, mb) :: evicted.boxes
      nextId := id + 1 }, id)

/-- The fan-out half of a publish (src/api/ws.go lines 258-262): under
the `clients` lock, send the event into every registered mailbox. -/
def publishPush (di : DI) (st : HubState) : HubState :=
  { st with boxes := st.clients.foldl (fun bs p => boxPush bs p.2 di) st.boxes }

/-- The `lastDI` half of a publish (src/api/ws.go lines 264-267): under
the `lastDI` lock, store the event as the last one processed. -/
def publishSetLast (di : DI) (st : HubState) : HubState :=
  { st with lastDI := some di }

/-- A whole publish as performed by `StreamHandler.Run`: the fan-out
loop first, the `lastDI` store second — in that source order. -/
def publish (di : DI) (st : HubState) : HubState :=
  publishSetLast di (publishPush di st)

/-- Embedding of the `close` closure returned by `OpenRx` (src/api/ws.go
lines 164-170): remove the key from the registry, then (by `defer`, so
last) close the mailbox channel.  Closing an already-closed channel
panics in Go, modelled as `none`. -/
def closeRx (key : String) (id : Nat) (st : HubState) : Option HubState :=
  match boxGet st.boxes id with
  | none => none
  | some mb =>
    if mb.closed then none
    else
      some { st with clients := eraseKey st.clients key
                     boxes := boxClose st.boxes id }

/-- The operations that touch the hub state, for reasoning about every
reachable state: a subscription, the unsubscribe closure of an earlier
subscription, and the two halves of a publish. -/
inductive HubOp where
  | subscribe (key : String) : HubOp
  | unsubscribe (key : String) (id : Nat) : HubOp
  | pubPush (di : DI) : HubOp
  | pubSetLast (di : DI) : HubOp
deriving DecidableEq, Repr

/-- Whether an operation is the `lastDI`-store half of a publish, i.e.
the step whose completion makes a publish complete. -/
def isSetLast : HubOp → Bool
  | .pubSetLast _ => true
  | _ => false

/-- One hub operation; `none` is a panic. -/
def execOp (st : HubState) : HubOp → Option HubState
  | .subscribe key => some (openRx key st).1
  | .unsubscribe key id => closeRx key id st
  | .pubPush di => some (publishPush di st)
  | .pubSetLast di => some (publishSetLast di st)

/-- A sequence of hub operations from a starting state. -/
def execOps (st : HubState) : List HubOp → Option HubState
  | [] => some st
  | op :: rest =>
    match execOp st op with
    | none => none
    | some st1 => execOps st1 rest

/-! ## Completion signalling (`Done`)

`StreamHandler.Run` (src/api/ws.go lines 238-248) and `Server.read`
(src/api/ws/server.go lines 211-241) both own a `Done chan error`.  The
reader is modelled by the sequence of results its successive `Read`
calls produce; the functions below return the values the loop sends
into `Done` over the whole run, in order (`none` is Go's `nil`). -/

/-- One result of `csv.Reader.Read`: a record, the `io.EOF` terminal
error, or another terminal read error with its message. -/
inductive ReadResult where
  | record (rec : List String) : ReadResult
  | eofErr : ReadResult
  | readErr (msg : String) : ReadResult
deriving DecidableEq, Repr

/-- Values sent into `Done` by `StreamHandler.Run` (src/api/ws.go): on
`io.EOF` the first branch sends `nil` and — the branch does not return —
control falls into the generic error branch, which sends a wrapping
error and returns; on another read error only the wrapping error is
sent; records never send. -/
def runDoneEmits : List ReadResult → List (Option String)
  | [] => []
  | .record _ :: rest => runDoneEmits rest
  | .eofErr :: _ => [none, some "unable to read from input: EOF"]
  | .readErr msg :: _ => [some ("unable to read from input: " ++ msg)]

/-- Values sent into `Done` by `Server.read` (src/api/ws/server.go): the
`io.EOF` branch sends `nil` and returns; another read error sends the
wrapping error and returns; records never send. -/
def serverReadDoneEmits : List ReadResult → List (Option String)
  | [] => []
  | .record _ :: rest => serverReadDoneEmits rest
  | .eofErr :: _ => [none]
  | .readErr msg :: _ => [some ("unable to read from input: " ++ msg)]

/-! ## Concrete instances used by witnesses and counterexamples -/

/-- An oracle under which every external call succeeds. -/
def oAllOk : NetOracle := ⟨fun _ => false, fun _ => false, fun _ => false⟩

/-- The column mapping of the example record in the source comment. -/
def mDefault : Mapping := ⟨0, 1, 2, 3⟩

/-- A concrete decoded event. -/
def d0 : DI :=
  { startAt := 0, endAt := 0, link := "https://example.com/i.jpg"
    word := "all", fileName := "x.jpg" }

end Dis

namespace Dis

/-! ## Association-list and mailbox lemmas -/

theorem lookupKey_eq_none {l : List (String × Nat)} {k : String} :
    lookupKey l k = none ↔ ∀ p ∈ l, p.1 ≠ k := by
  induction l with
  | nil => simp [lookupKey]
  | cons p rest ih => by_cases hp : p.1 = k <;> simp [lookupKey, hp, ih]

theorem lookupKey_some_mem {l : List (String × Nat)} {k : String} {i : Nat}
    (h : lookupKey l k = some i) : (k, i) ∈ l := by
  induction l with
  | nil => simp [lookupKey] at h
  | cons p rest ih =>
    obtain ⟨a, b⟩ := p
    by_cases hp : a = k
    · subst hp
      simp only [lookupKey, if_true, Option.some.injEq, if_pos] at h
      subst h
      exact List.mem_cons_self _ _
    · simp only [lookupKey, hp, ite_false, if_neg, not_false_iff] at h
      exact List.mem_cons_of_mem _ (ih h)

theorem mem_eraseKey {l : List (String × Nat)} {k : String} {p : String × Nat} :
    p ∈ eraseKey l k ↔ p ∈ l ∧ p.1 ≠ k := by
  simp [eraseKey, List.mem_filter]

theorem eraseKey_sublist (l : List (String × Nat)) (k : String) :
    (eraseKey l k).Sublist l :=
  List.filter_sublist l

theorem nodup_keys_eraseKey {l : List (String × Nat)} (k : String)
    (h : (l.map Prod.fst).Nodup) : ((eraseKey l k).map Prod.fst).Nodup :=
  (((eraseKey_sublist l k).map Prod.fst)).nodup h

theorem lookupKey_eraseKey_self (l : List (String × Nat)) (k : String) :
    lookupKey (eraseKey l k) k = none :=
  lookupKey_eq_none.2 (fun _ hp => (mem_eraseKey.1 hp).2)

theorem eraseKey_eraseKey (l : List (String × Nat)) (k : String) :
    eraseKey (eraseKey l k) k = eraseKey l k := by
  induction l with
  | nil => rfl
  | cons p rest ih =>
    by_cases hp : p.1 = k <;> simp [eraseKey, List.filter_cons, hp] at ih ⊢

theorem boxGet_boxClose_self (bs : List (Nat × Mailbox)) (i : Nat) :
    boxGet (boxClose bs i) i
      = (boxGet bs i).map (fun mb => { mb with closed := true }) := by
  induction bs with
  | nil => rfl
  | cons p rest ih => by_cases hp : p.1 = i <;> simp [boxClose, boxGet, hp, ih]

/-! ## Hub state invariant over every reachable state -/

/-- Registry keys are pairwise distinct: each key has at most one
registered mailbox. -/
def hubKeysNodup (st : HubState) : Prop := (st.clients.map Prod.fst).Nodup

/-- Every registered mailbox identifier has already been allocated. -/
def hubIdsBound (st : HubState) : Prop := ∀ p ∈ st.clients, p.2 < st.nextId

/-- The hub invariant carried through every operation. -/
def HubInv (st : HubState) : Prop := hubKeysNodup st ∧ hubIdsBound st

theorem hubInv_init : HubInv hubInit :=
  ⟨List.nodup_nil, fun p hp => by simp [hubInit] at hp⟩

theorem hubInv_openRx (key : String) (st : HubState) (h : HubInv st) :
    HubInv (openRx key st).1 := by
  obtain ⟨h1, h2⟩ := h
  unfold openRx
  cases hl : lookupKey st.clients key with
  | none =>
    refine ⟨?_, ?_⟩
    · have hk : key ∉ st.clients.map Prod.fst := by
        intro hmem
        obtain ⟨p, hp, hpk⟩ := List.mem_map.1 hmem
        exact (lookupKey_eq_none.1 hl p hp) hpk
      simpa [hubKeysNodup] using List.Nodup.cons hk h1
    · intro p hp
      simp only [List.mem_cons] at hp
      rcases hp with rfl | hp
      · simp
      · exact Nat.lt_succ_of_lt (h2 p hp)
  | some oldId =>
    refine ⟨?_, ?_⟩
    · have hk : key ∉ (eraseKey st.clients key).map Prod.fst := by
        intro hmem
        obtain ⟨p, hp, hpk⟩ := List.mem_map.1 hmem
        exact (mem_eraseKey.1 hp).2 hpk
      simpa [hubKeysNodup] using List.Nodup.cons hk (nodup_keys_eraseKey key h1)
    · intro p hp
      simp only [List.mem_cons] at hp
      rcases hp with rfl | hp
      · simp
      · exact Nat.lt_succ_of_lt (h2 p (mem_eraseKey.1 hp).1)

theorem hubInv_closeRx (key : String) (id : Nat) (st st1 : HubState)
    (h : HubInv st) (he : closeRx key id st = some st1) : HubInv st1 := by
  obtain ⟨h1, h2⟩ := h
  unfold closeRx at he
  cases hb : boxGet st.boxes id with
  | none => rw [hb] at he; cases he
  | some mb =>
    rw [hb] at he
    by_cases hc : mb.closed
    · simp [hc] at he
    · simp only [hc, Bool.false_eq_true, ite_false, if_false, Option.some.injEq] at he
      subst he
      exact ⟨nodup_keys_eraseKey key h1, fun p hp => h2 p (mem_eraseKey.1 hp).1⟩

theorem hubInv_execOp (st st1 : HubState) (op : HubOp)
    (h : HubInv st) (he : execOp st op = some st1) : HubInv st1 := by
  cases op with
  | subscribe key =>
    simp only [execOp, Option.some.injEq] at he
    subst he
    exact hubInv_openRx key st h
  | unsubscribe key id => exact hubInv_closeRx key id st st1 h he
  | pubPush di =>
    simp only [execOp, Option.some.injEq] at he
    subst he
    exact h
  | pubSetLast di =>
    simp only [execOp, Option.some.injEq] at he
    subst he
    exact h

theorem hubInv_execOps (ops : List HubOp) (st st1 : HubState)
    (h : HubInv st) (he : execOps st ops = some st1) : HubInv st1 := by
  induction ops generalizing st with
  | nil =>
    simp only [execOps, Option.some.injEq] at he
    subst he
    exact h
  | cons op rest ih =>
    simp only [execOps] at he
    cases hop : execOp st op with
    | none => rw [hop] at he; cases he
    | some st2 =>
      rw [hop] at he
      exact ih st2 (hubInv_execOp st st2 op h hop) he

/-! ## The last-event slot along publish-free traces -/

theorem openRx_lastDI (key : String) (st : HubState) :
    (openRx key st).1.lastDI = st.lastDI := by
  unfold openRx
  cases hl : lookupKey st.clients key <;> simp

theorem closeRx_lastDI (key : String) (id : Nat) (st st1 : HubState)
    (he : closeRx key id st = some st1) : st1.lastDI = st.lastDI := by
  unfold closeRx at he
  cases hb : boxGet st.boxes id with
  | none => rw [hb] at he; cases he
  | some mb =>
    rw [hb] at he
    by_cases hc : mb.closed
    · simp [hc] at he
    · simp only [hc, Bool.false_eq_true, ite_false, if_false, Option.some.injEq] at he
      subst he
      rfl

theorem execOps_lastDI (ops : List HubOp) (st st1 : HubState)
    (hops : ∀ op ∈ ops, isSetLast op = false)
    (he : execOps st ops = some st1) : st1.lastDI = st.lastDI := by
  induction ops generalizing st with
  | nil =>
    simp only [execOps, Option.some.injEq] at he
    subst he
    rfl
  | cons op rest ih =>
    simp only [execOps] at he
    cases hop : execOp st op with
    | none => rw [hop] at he; cases he
    | some st2 =>
      rw [hop] at he
      have hrest : ∀ o ∈ rest, isSetLast o = false :=
        fun o ho => hops o (List.mem_cons_of_mem _ ho)
      have h2 : st2.lastDI = st.lastDI := by
        cases op with
        | subscribe key =>
          simp only [execOp, Option.some.injEq] at hop
          subst hop
          exact openRx_lastDI key st
        | unsubscribe key id => exact closeRx_lastDI key id st st2 hop
        | pubPush di =>
          simp only [execOp, Option.some.injEq] at hop
          subst hop
          rfl
        | pubSetLast di =>
          have := hops _ (List.mem_cons_self _ _)
          simp [isSetLast] at this
      rw [ih st2 hrest he, h2]

/-- The mailbox freshly created by `OpenRx` holds exactly the replay of
the `lastDI` slot at subscription time. -/
theorem openRx_boxGet (key : String) (st : HubState) :
    boxGet (openRx key st).1.boxes (openRx key st).2
      = some { buf := match st.lastDI with | some di => [di] | none => []
               closed := false } := by
  unfold openRx
  cases hl : lookupKey st.clients key <;> simp [boxGet]

end Dis

namespace Dis

/-- C10: `ParseDuration "00:00:59.999"` succeeds with 59 seconds plus 999
milliseconds, while `"00:60:00.000"`, `"00:00:60.000"` and
`"0:00:00.000"` are each rejected (minutes out of range, seconds out of
range, and a one-digit hours component, respectively). -/
theorem C10_duration_boundaries :
    ParseDuration "00:00:59.999" = .ok (59 * goSecond + 999 * goMillisecond)
    ∧ ParseDuration "00:60:00.000" = .error .minutes
    ∧ ParseDuration "00:00:60.000" = .error .seconds
    ∧ ParseDuration "0:00:00.000" = .error (.unitDigits 0 1) :=
  ⟨rfl, rfl, rfl, rfl⟩

/-- C3: the claim that every string with a non-digit hour, minute, second
or millisecond component is rejected fails on the code: `ParseDuration`
discards the `strconv.Atoi` conversion errors (`h, _ := strconv.Atoi(...)`),
so `"aa:00:00.000"` — whose hours component is not made of digits —
passes every length check, parses as zero, and is accepted with a zero
duration instead of producing a `DurationFormatError`. -/
theorem C3_atoi_error_ignored :
    ParseDuration "aa:00:00.000" = .ok 0
    ∧ ParseDuration "-1:00:00.000" = .ok (-1 * goHour) :=
  ⟨rfl, rfl⟩

/-- C4: the claim that a passing schema check keeps every column access
in bounds fails on the code: the guard is `len(rec) < m.max()`, yet the
column indices go up to `m.max()` itself.  With the mapping
`(cs=0, ce=1, cw=2, cl=3)` and a record of exactly `max() = 3` fields,
the schema check passes and the access to the link column at index 3 is
out of range — a runtime panic, not a rejection. -/
theorem C4_oob_access :
    mDefault.max = 3
    ∧ ¬ (["00:00:00.400", "00:00:00.540", "all"].length < mDefault.max)
    ∧ decodeDI mDefault ["00:00:00.400", "00:00:00.540", "all"] = .panicOOB 3 := by
  refine ⟨rfl, by decide, rfl⟩

/-- C5: a record shorter than the mapping's maximum index is rejected by
`decodeDI` with the schema error carrying the record length and the
required minimum, before any column is read; the ingestion step then
leaves storage untouched, performs no create or retrieval call, and
broadcasts nothing. -/
theorem C5_schema_reject (o : NetOracle) (m : Mapping) (fs : List String)
    (rec : List String) (h : rec.length < m.max) :
    decodeDI m rec = .err (.schema rec.length m.max)
    ∧ processRecord o m fs rec = some (fs, ⟨0, 0⟩, none) := by
  constructor
  · simp [decodeDI, h]
  · simp [processRecord, decodeDI, h]

/-- C5 witness: the empty record against the example mapping. -/
theorem C5_schema_reject_witness :
    decodeDI mDefault [] = .err (.schema 0 3)
    ∧ processRecord oAllOk mDefault ["a.jpg"] [] = some (["a.jpg"], ⟨0, 0⟩, none) :=
  C5_schema_reject oAllOk mDefault ["a.jpg"] [] (by decide)

/-- C6: when the event's content key already exists in storage, `ensure`
returns the event unchanged, leaves storage as it was, and performs no
create call and no retrieval; and once an `ensure` has completed
successfully for an event, running it again on the resulting storage is
such a cache hit — no retrieval, the same event and hence the same
content key. -/
theorem C6_cache_hit_dedup (o : NetOracle) (fs : List String) (di : DI) :
    (fs.contains di.fileName = true → ensure o fs di = (.ok di, fs, ⟨0, 0⟩))
    ∧ ∀ fs1 eff, downloadImage o fs di = (.ok (), fs1, eff) →
        ensure o fs1 di = (.ok di, fs1, ⟨0, 0⟩) := by
  constructor
  · intro h
    unfold ensure downloadImage
    rw [if_pos h]
  · intro fs1 eff h
    unfold downloadImage at h
    split_ifs at h with hm hcr hg hcp
    · simp only [Prod.mk.injEq] at h
      obtain ⟨-, rfl, -⟩ := h
      unfold ensure downloadImage
      rw [if_pos hm]
    · simp at h
    · simp at h
    · simp at h
    · simp only [Prod.mk.injEq] at h
      obtain ⟨-, rfl, -⟩ := h
      have hmem : (di.fileName :: fs).contains di.fileName = true := by
        simp [List.contains_cons]
      unfold ensure downloadImage
      rw [if_pos hmem]

/-- C6 witness: a hit on pre-existing storage, and a fresh fetch
followed by a hit on the storage it produced. -/
theorem C6_cache_hit_dedup_witness :
    ensure oAllOk ["x.jpg"] d0 = (.ok d0, ["x.jpg"], ⟨0, 0⟩)
    ∧ ensure oAllOk ["x.jpg", "other"] d0 = (.ok d0, ["x.jpg", "other"], ⟨0, 0⟩) :=
  ⟨(C6_cache_hit_dedup oAllOk ["x.jpg"] d0).1 rfl,
   (C6_cache_hit_dedup oAllOk ["other"] d0).2 ["x.jpg", "other"] ⟨1, 1⟩ rfl⟩

/-- C1: the claim that `lastEvent` is updated before the event reaches
any mailbox fails on the code: `StreamHandler.Run` runs the fan-out loop
first and stores into `lastDI` afterwards.  Concretely, with one
subscriber, after the fan-out half of a publish the subscriber's mailbox
already holds the event while `lastDI` does not yet reflect it. -/
theorem C1_counterexample :
    boxGet (publishPush d0 (openRx "stream:1" hubInit).1).boxes 0
      = some { buf := [d0], closed := false }
    ∧ (publishPush d0 (openRx "stream:1" hubInit).1).lastDI ≠ some d0 := by
  refine ⟨rfl, by decide⟩

/-- C1 (amended): a publish pushes the event into every registered
mailbox first and updates `lastEvent` second — the push half leaves
`lastDI` untouched — and when the publish completes, `lastEvent` equals
the published event. -/
theorem C1_publish_order_amended (di : DI) (st : HubState) :
    publish di st = publishSetLast di (publishPush di st)
    ∧ (publishPush di st).lastDI = st.lastDI
    ∧ (publish di st).lastDI = some di :=
  ⟨rfl, rfl, rfl⟩

/-- C2: after a publish of an event completes, a new subscription with
no intervening publish returns a mailbox that already contains exactly
that event; and along any history in which no publish has completed (no
`lastDI` store has run), a new subscription returns an empty mailbox. -/
theorem C2_late_join (st : HubState) (di : DI) (key : String) :
    boxGet (openRx key (publish di st)).1.boxes (openRx key (publish di st)).2
      = some { buf := [di], closed := false }
    ∧ ∀ (ops : List HubOp) (st1 : HubState), (∀ op ∈ ops, isSetLast op = false) →
        execOps hubInit ops = some st1 → ∀ k,
        boxGet (openRx k st1).1.boxes (openRx k st1).2
          = some { buf := [], closed := false } := by
  constructor
  · exact openRx_boxGet key (publish di st)
  · intro ops st1 hops he k
    have hl : st1.lastDI = none := execOps_lastDI ops hubInit st1 hops he
    have := openRx_boxGet k st1
    rw [hl] at this
    exact this

/-- C2 witness: a publish into the empty hub then a subscription, and a
publish-free history (one prior subscription) then a subscription. -/
theorem C2_late_join_witness :
    boxGet (openRx "k" (publish d0 hubInit)).1.boxes
        (openRx "k" (publish d0 hubInit)).2
      = some { buf := [d0], closed := false }
    ∧ boxGet (openRx "k" (openRx "a" hubInit).1).1.boxes
        (openRx "k" (openRx "a" hubInit).1).2
      = some { buf := [], closed := false } :=
  ⟨(C2_late_join hubInit d0 "k").1,
   (C2_late_join hubInit d0 "k").2 [HubOp.subscribe "a"] (openRx "a" hubInit).1
     (by decide) rfl "k"⟩

/-- C7: in every state reachable by subscriptions, unsubscriptions and
publishes from the empty hub, the registry holds at most one mailbox per
key; and a subscription under a key that is already registered maps the
key to the freshly allocated mailbox, which is distinct from the prior
one, and the prior mailbox comes out closed. -/
theorem C7_registry_unique (ops : List HubOp) (st : HubState)
    (h : execOps hubInit ops = some st) :
    (st.clients.map Prod.fst).Nodup
    ∧ ∀ key oldId, lookupKey st.clients key = some oldId →
        lookupKey (openRx key st).1.clients key = some (openRx key st).2
        ∧ (openRx key st).2 ≠ oldId
        ∧ ∀ mbOld, boxGet st.boxes oldId = some mbOld →
            boxGet (openRx key st).1.boxes oldId
              = some { mbOld with closed := true } := by
  have hinv := hubInv_execOps ops hubInit st hubInv_init h
  refine ⟨hinv.1, ?_⟩
  intro key oldId hk
  have hbound : oldId < st.nextId := hinv.2 _ (lookupKey_some_mem hk)
  have hne : st.nextId ≠ oldId := Nat.ne_of_gt hbound
  refine ⟨?_, ?_, ?_⟩
  · unfold openRx
    rw [hk]
    simp [lookupKey]
  · unfold openRx
    rw [hk]
    simpa using hne
  · intro mbOld hbg
    unfold openRx
    rw [hk]
    simp only [boxGet, hne, if_false, ite_false]
    rw [boxGet_boxClose_self, hbg]
    rfl

/-- C7 witness: one subscription from the empty hub, then a colliding
re-subscription under the same key. -/
theorem C7_registry_unique_witness :
    ((openRx "k" hubInit).1.clients.map Prod.fst).Nodup
    ∧ lookupKey (openRx "k" (openRx "k" hubInit).1).1.clients "k"
        = some (openRx "k" (openRx "k" hubInit).1).2
    ∧ boxGet (openRx "k" (openRx "k" hubInit).1).1.boxes 0
        = some { buf := [], closed := true } := by
  have h := C7_registry_unique [HubOp.subscribe "k"] (openRx "k" hubInit).1 rfl
  have h2 := h.2 "k" 0 rfl
  exact ⟨h.1, h2.1, h2.2.2 { buf := [], closed := false } rfl⟩

/-- C8: the claim that the unsubscribe closure is idempotent fails on
the code: the closure ends in `close(c)`, and closing an already-closed
Go channel panics.  Concretely, after one subscription, the first call
of the closure succeeds and the second panics. -/
theorem C8_counterexample :
    (closeRx "k" 0 (openRx "k" hubInit).1).isSome = true
    ∧ (closeRx "k" 0 (openRx "k" hubInit).1).bind (closeRx "k" 0) = none := by
  refine ⟨rfl, rfl⟩

/-- C8 (amended): the registry half of the unsubscribe closure is
idempotent — after a successful call the key is gone and deleting it
again would change nothing — but the closure as a whole is not safely
repeatable: a second call panics closing the already-closed mailbox
channel instead of completing without failure. -/
theorem C8_unsub_amended (key : String) (id : Nat) (st st1 : HubState)
    (h : closeRx key id st = some st1) :
    lookupKey st1.clients key = none
    ∧ eraseKey st1.clients key = st1.clients
    ∧ closeRx key id st1 = none := by
  unfold closeRx at h
  cases hb : boxGet st.boxes id with
  | none => rw [hb] at h; cases h
  | some mb =>
    rw [hb] at h
    by_cases hc : mb.closed
    · simp [hc] at h
    · simp only [hc, Bool.false_eq_true, ite_false, if_false, Option.some.injEq] at h
      subst h
      refine ⟨lookupKey_eraseKey_self st.clients key, eraseKey_eraseKey st.clients key, ?_⟩
      unfold closeRx
      rw [show ({ st with clients := eraseKey st.clients key
                          boxes := boxClose st.boxes id } : HubState).boxes
            = boxClose st.boxes id from rfl,
          boxGet_boxClose_self, hb]
      rfl

/-- C8 witness: the closure of a single subscription from the empty hub. -/
theorem C8_unsub_amended_witness :
    lookupKey (HubState.mk [] [(0, ⟨[], true⟩)] 1 none).clients "k" = none
    ∧ eraseKey (HubState.mk [] [(0, ⟨[], true⟩)] 1 none).clients "k"
        = (HubState.mk [] [(0, ⟨[], true⟩)] 1 none).clients
    ∧ closeRx "k" 0 (HubState.mk [] [(0, ⟨[], true⟩)] 1 none) = none :=
  C8_unsub_amended "k" 0 (openRx "k" hubInit).1 _ rfl

/-- C9: the claim that the completion signal fires exactly once — a
single clean value on end-of-input — fails on `StreamHandler.Run`
(src/api/ws.go): the `io.EOF` branch sends `nil` into `Done` but does
not return, so the generic error branch also runs and sends a second,
error value.  On an input that ends immediately with `io.EOF` the loop
sends two values, where the sibling `Server.read` (src/api/ws/server.go)
sends exactly one. -/
theorem C9_done_double_fire :
    runDoneEmits [ReadResult.eofErr]
      = [none, some "unable to read from input: EOF"]
    ∧ (runDoneEmits [ReadResult.eofErr]).length = 2
    ∧ serverReadDoneEmits [ReadResult.eofErr] = [none]
    ∧ (serverReadDoneEmits [ReadResult.eofErr]).length = 1 :=
  ⟨rfl, rfl, rfl, rfl⟩

end Dis
